import Mathlib

/-!
Shallow embedding of the flowly openh264 decoder stage (src/src/lib.rs and
src/src/error.rs).

The repository wraps the blocking openh264 decoder in a worker task.  The
worker drains an input channel of encoded frames, keeps a timestamp-ordered
heap of pending frame metadata (`Entry`, a `BinaryHeap` with a reversed
comparator, hence a min-heap over timestamps), decodes each chunk of each
received frame, and pairs every decoded image with the popped minimum-
timestamp pending entry to build a `DecodedFrame`.

Modelling decisions (each noted at the definition it concerns):
* timestamps (`u64`) are `Nat`; `u16` casts are taken `% 65536`;
* the native codec is an opaque stateful oracle
  `decode : sigma -> Chunk -> sigma x Except Nat (Option DecodedYUV)`,
  mirroring the `Result<Option<DecodedYUV>, Error>` contract of
  `openh264::decoder::Decoder::decode`;
* the `BinaryHeap<Entry<I>>` with the reversed `Ord` of `Entry`
  (src/src/lib.rs lines 226-236) is modelled as a timestamp-sorted list:
  the worker only ever uses `push`, `peek` (minimum) and `pop` (minimum),
  so a sorted list is an exact functional model of its observable
  behaviour (ties between equal timestamps are broken by insertion order,
  which the Rust heap leaves unspecified);
* the two bounded spsc channels are modelled as queues: the worker-loop
  model `runUnits` consumes the finite list of frames that reach the
  worker before the input channel closes and returns the list of items it
  sends on the output channel (the consumer is taken to be alive, the
  path exercised by the claims);
* `FrameFlags` (a bitflags word of the external `flowly` crate) is
  modelled as the three atoms named by the code (`ENCODED`, `ANNEXB`,
  `VIDEO_STREAM`) plus a `rest` field for all remaining bits.
-/

namespace FlowlyOpenh264

/-- Model of `flowly::FrameFlags`: the three flag atoms the code names,
plus `rest` standing for every other bit of the flags word. -/
structure FrameFlags where
  encoded : Bool
  annexb : Bool
  videoStream : Bool
  rest : Nat
deriving DecidableEq

/-- `FrameFlags::VIDEO_STREAM`: just the video-stream bit set. -/
def FrameFlags.videoStreamOnly : FrameFlags :=
  { encoded := false, annexb := false, videoStream := true, rest := 0 }

/-- An encoded input frame as the worker sees it (the generic
`I: EncodedFrame` of `Openh264Decoder`): a timestamp, a source tag, frame
flags, and the list of raw byte chunks returned by `frame.chunks()`. -/
structure EncodedUnit (S : Type) where
  timestamp : Nat
  source : S
  flags : FrameFlags
  chunks : List (List Nat)
deriving DecidableEq

/-- Model of `openh264::decoder::DecodedYUV`: the dimensions the codec
reports and an abstract pixel-byte function standing for its contents. -/
structure DecodedYUV where
  width : Nat
  height : Nat
  px : Nat → Nat

/-- Model of `DecodedYUV::write_rgb8` writing into the caller's buffer of
exactly `width*height*3` bytes (src/src/lib.rs lines 159-162 allocate the
buffer with that capacity, set its length, and have the codec fill it; the
byte values are abstracted by `px`). -/
def writeRgb8 (frame : DecodedYUV) : List Nat :=
  (List.range (frame.width * frame.height * 3)).map frame.px

/-- Model of `error::Error` (src/src/error.rs): an I/O error, a codec
error, or `Other` carrying the uninhabited `flowly::Void`.  There is no
channel-closed constructor, exactly as in the source. -/
inductive Error : Type where
  | ioError (e : Nat)
  | openH264Error (e : Nat)
  | other (v : Empty)
deriving DecidableEq

/-- The output frame type `DecodedFrame<S>` (src/src/lib.rs lines 18-26);
`width`/`height` are the `u16` fields, kept `< 65536` by the `as u16`
casts in `make_frame`. -/
structure DecodedFrame (S : Type) where
  timestamp : Nat
  data : List Nat
  width : Nat
  height : Nat
  flags : FrameFlags
  source : S
deriving DecidableEq

/-- `Openh264Decoder::make_frame` (src/src/lib.rs lines 154-183): build a
`DecodedFrame` from the optionally popped pending entry and the decoded
image.  Timestamp, source and flags come from the entry when present and
default (zero timestamp, default source, `VIDEO_STREAM` flags) otherwise;
the `ENCODED` and `ANNEXB` flags are cleared; `width`/`height` are the
codec dimensions cast `as u16`. -/
def makeFrame {S : Type} [Inhabited S] (inFrame : Option (EncodedUnit S))
    (frame : DecodedYUV) : DecodedFrame S :=
  let flags0 := match inFrame with
    | some x => x.flags
    | none => FrameFlags.videoStreamOnly
  { timestamp := match inFrame with
      | some x => x.timestamp
      | none => 0
    data := writeRgb8 frame
    width := frame.width % 65536
    height := frame.height % 65536
    flags := { flags0 with encoded := false, annexb := false }
    source := match inFrame with
      | some x => x.source
      | none => default }

/-- Timestamps of the heap entries, in heap (sorted) order. -/
def tsList {S : Type} (heap : List (EncodedUnit S)) : List Nat :=
  heap.map (·.timestamp)

/-- Push onto the reassociation heap.  The Rust `BinaryHeap<Entry<I>>`
orders entries by the reversed timestamp comparison (src/src/lib.rs lines
226-236), so `peek`/`pop` return a minimum-timestamp entry; the model
keeps the entries as a list sorted by ascending timestamp, new entries
inserted after existing entries of equal timestamp. -/
def heapPush {S : Type} (u : EncodedUnit S) :
    List (EncodedUnit S) → List (EncodedUnit S)
  | [] => [u]
  | x :: xs =>
    if x.timestamp ≤ u.timestamp then x :: heapPush u xs else u :: x :: xs

/-- The heap bookkeeping run for each received frame (src/src/lib.rs lines
113-119): peek the minimum entry; push the frame unless the minimum exists
and carries the same timestamp. -/
def heapUpdate {S : Type} (heap : List (EncodedUnit S)) (u : EncodedUnit S) :
    List (EncodedUnit S) :=
  match heap.head? with
  | some e => if e.timestamp ≠ u.timestamp then heapPush u heap else heap
  | none => heapPush u heap

/-- Result of one native decode call:
`Result<Option<DecodedYUV>, openh264::Error>`. -/
abbrev DecodeResult := Except Nat (Option DecodedYUV)

/-- An item sent on the output channel:
`Result<DecodedFrame<S>, Error>`. -/
abbrev OutItem (S : Type) := Except Error (DecodedFrame S)

/-- The inner chunk loop (src/src/lib.rs lines 121-132): decode each chunk;
an `Err` from the codec is mapped through `Error::from` and sent as an
error item; `Ok(None)` sends nothing; `Ok(Some(img))` pops the heap
minimum and sends `Ok(make_frame(popped, img))`.  The loop continues after
every sent item (the only `break` is on output-channel closure, and the
consumer is modelled as alive).  Returns the final codec state, the final
heap, and the items sent, in order. -/
def runChunks {S : Type} [Inhabited S] {σ : Type}
    (dec : σ → List Nat → σ × DecodeResult) (cs : σ)
    (heap : List (EncodedUnit S)) :
    List (List Nat) → σ × List (EncodedUnit S) × List (OutItem S)
  | [] => (cs, heap, [])
  | c :: rest =>
    match dec cs c with
    | (cs1, .error e) =>
      let (cs2, h2, outs) := runChunks dec cs1 heap rest
      (cs2, h2, .error (Error.openH264Error e) :: outs)
    | (cs1, .ok none) => runChunks dec cs1 heap rest
    | (cs1, .ok (some img)) =>
      let (cs2, h2, outs) := runChunks dec cs1 heap.tail rest
      (cs2, h2, .ok (makeFrame heap.head? img) :: outs)

/-- The worker loop body per received frame (src/src/lib.rs lines 95-133):
run the heap bookkeeping, then the chunk loop, over the finite list of
frames that reach the worker before the input channel closes. -/
def runUnits {S : Type} [Inhabited S] {σ : Type}
    (dec : σ → List Nat → σ × DecodeResult) (cs : σ)
    (heap : List (EncodedUnit S)) :
    List (EncodedUnit S) → σ × List (EncodedUnit S) × List (OutItem S)
  | [] => (cs, heap, [])
  | u :: rest =>
    let h1 := heapUpdate heap u
    let (cs1, h2, outs1) := runChunks dec cs h1 u.chunks
    let (cs2, h3, outs2) := runUnits dec cs1 h2 rest
    (cs2, h3, outs1 ++ outs2)

/-- `true` iff no decode call that yields an image finds the heap empty
(no heap underrun), along the same chunk recursion as `runChunks`. -/
def chunksNoUnderrun {S : Type} {σ : Type}
    (dec : σ → List Nat → σ × DecodeResult) (cs : σ)
    (heap : List (EncodedUnit S)) : List (List Nat) → Bool
  | [] => true
  | c :: rest =>
    match dec cs c with
    | (cs1, .error _) => chunksNoUnderrun dec cs1 heap rest
    | (cs1, .ok none) => chunksNoUnderrun dec cs1 heap rest
    | (cs1, .ok (some _)) =>
      !heap.isEmpty && chunksNoUnderrun dec cs1 heap.tail rest

/-- `true` iff no heap underrun happens anywhere in the run of `runUnits`
on the given frames. -/
def unitsNoUnderrun {S : Type} [Inhabited S] {σ : Type}
    (dec : σ → List Nat → σ × DecodeResult) (cs : σ)
    (heap : List (EncodedUnit S)) : List (EncodedUnit S) → Bool
  | [] => true
  | u :: rest =>
    let h1 := heapUpdate heap u
    let (cs1, h2, _) := runChunks dec cs h1 u.chunks
    chunksNoUnderrun dec cs h1 u.chunks && unitsNoUnderrun dec cs1 h2 rest

/-- Timestamps of the successfully decoded frames among the output items,
in emission order (error items carry no frame, hence no timestamp). -/
def outTimestamps {S : Type} (outs : List (OutItem S)) : List Nat :=
  outs.filterMap fun r =>
    match r with
    | .ok f => some f.timestamp
    | .error _ => none

/-- The caller-side state of the stream adapter: whether the worker-side
receiver of the input channel is still alive, the frames delivered into
the input channel, and the items currently available on the output
channel. -/
structure AdapterState (S : Type) where
  workerAlive : Bool
  inputQueue : List (EncodedUnit S)
  outputQueue : List (OutItem S)

/-- `Service::handle` for `Openh264Decoder` (src/src/lib.rs lines
194-205): `let _ = self.sender.send(frame).await` — the frame is enqueued
when the worker side is alive, and the send result is discarded in every
case — then `while let Ok(Some(res)) = self.receiver.try_recv()` yields
exactly the items currently available on the output channel, leaving it
drained.  Returns the new adapter state and the yielded items. -/
def handle {S : Type} (st : AdapterState S) (frame : EncodedUnit S) :
    AdapterState S × List (OutItem S) :=
  let inq := if st.workerAlive then st.inputQueue ++ [frame] else st.inputQueue
  ({ workerAlive := st.workerAlive, inputQueue := inq, outputQueue := [] },
    st.outputQueue)

/-! Concrete fixtures used to exercise the model on the scenarios the
claims name.  Source tags are `Nat`; the input flags have `ENCODED` and
`ANNEXB` set, as an encoded Annex-B frame would. -/

/-- Typical flags of an encoded input frame. -/
def flgIn : FrameFlags := ⟨true, true, true, 5⟩

/-- A 1x1 decoded image. -/
def img1 : DecodedYUV := ⟨1, 1, fun _ => 0⟩

/-- A frame with timestamp 5, source tag 55, one chunk. -/
def u5 : EncodedUnit Nat := ⟨5, 55, flgIn, [[0]]⟩

/-- A frame with timestamp 15, source tag 77, one chunk. -/
def u15 : EncodedUnit Nat := ⟨15, 77, flgIn, [[1]]⟩

/-- Codec oracle counting its calls: the first decode call reports a codec
error, every later call yields an image. -/
def dec1 : Nat → List Nat → Nat × DecodeResult := fun n _ =>
  (n + 1, if n = 0 then .error 7 else .ok (some img1))

/-- Codec oracle counting its calls: the first decode call buffers
(`Ok(None)`), every later call yields an image. -/
def dec2 : Nat → List Nat → Nat × DecodeResult := fun n _ =>
  (n + 1, if n = 0 then .ok none else .ok (some img1))

/-- Codec oracle that yields an image on every decode call. -/
def decImg : Nat → List Nat → Nat × DecodeResult := fun n _ =>
  (n, .ok (some img1))

/-- Codec oracle that always buffers (`Ok(None)`). -/
def decNone : Nat → List Nat → Nat × DecodeResult := fun n _ => (n, .ok none)

/-- A frame with timestamp 5 split into two chunks. -/
def u5two : EncodedUnit Nat := ⟨5, 55, flgIn, [[0], [1]]⟩

/-- A frame with timestamp 7, source tag 99, one chunk. -/
def u7 : EncodedUnit Nat := ⟨7, 99, flgIn, [[2]]⟩

/-- A chunkless frame with timestamp 3. -/
def v3 : EncodedUnit Nat := ⟨3, 1, flgIn, []⟩

/-- A chunkless frame with timestamp 5. -/
def v5 : EncodedUnit Nat := ⟨5, 2, flgIn, []⟩

/-- A second chunkless frame with timestamp 5 (a repeat of `v5`'s
timestamp with a different source tag). -/
def v5b : EncodedUnit Nat := ⟨5, 3, flgIn, []⟩

/-- C1 counterexample: the first decode call fails with a codec error, yet
the worker keeps going — the error is sent as an output item and the next
received frame (timestamp 15) is decoded, producing a successful frame
after the error.  The claim that the worker loop exits at the first codec
error, decoding no subsequently received unit, is false on the code: the
decode result is sent on the output channel whether it is an error or not,
and only a closed channel breaks the loop (src/src/lib.rs lines 121-132
have no early return on a decode error). -/
theorem c1_counterexample :
    (runUnits dec1 0 [] [u5, u15]).2.2 =
      [.error (Error.openH264Error 7), .ok (makeFrame (some u5) img1)] ∧
    (makeFrame (some u5) img1).timestamp = 5 :=
  ⟨rfl, rfl⟩

/-- C1 amended: a codec error never stops the worker.  Processing a
concatenation of received frames emits exactly the outputs of the first
part followed by the outputs of the second part resumed from the reached
state — whatever errors the codec reported along the way, the loop keeps
processing and exits only when the input list is exhausted (the input
channel closes). -/
theorem c1_amended_worker_continues_after_codec_error {S : Type}
    [Inhabited S] {σ : Type} (dec : σ → List Nat → σ × DecodeResult)
    (cs : σ) (heap : List (EncodedUnit S)) (us vs : List (EncodedUnit S)) :
    (runUnits dec cs heap (us ++ vs)).2.2 =
      (runUnits dec cs heap us).2.2 ++
        (runUnits dec (runUnits dec cs heap us).1
          (runUnits dec cs heap us).2.1 vs).2.2 := by
  induction us generalizing cs heap with
  | nil => simp [runUnits]
  | cons u rest ih =>
    simp only [List.cons_append, runUnits]
    rcases hrc : runChunks (S := S) dec cs (heapUpdate heap u) u.chunks with
      ⟨cs1, h2, outs1⟩
    rw [List.append_eq, ih cs1 h2, List.append_assoc]

/-- The heap invariant: entries are sorted by ascending timestamp, so the
head is a minimum-timestamp entry (the one `peek`/`pop` return). -/
def HeapSorted {S : Type} (h : List (EncodedUnit S)) : Prop :=
  List.Pairwise (fun a b => a.timestamp ≤ b.timestamp) h

/-- C2: a decoded image is stamped from the popped minimum-timestamp
pending entry, not from the frame whose chunk triggered the decode.  The
concrete scenario: a frame with timestamp 5 decodes to nothing, then a
frame with timestamp 15 decodes to an image; the single produced frame is
built from the pending entry with timestamp 5 and source 55, even though
the frame with timestamp 15 triggered the decode.  In general, on a sorted
heap the entry handed to `makeFrame` is the head, its timestamp is minimal
among all pending entries, and the built frame copies its timestamp and
source. -/
theorem c2_output_stamped_from_min_pending_entry :
    ((runUnits dec2 0 [] [u5, u15]).2.2 = [.ok (makeFrame (some u5) img1)] ∧
      (makeFrame (some u5) img1).timestamp = 5 ∧
      (makeFrame (some u5) img1).source = 55 ∧
      u15.timestamp = 15) ∧
    ∀ (S : Type) (_inst : Inhabited S) (e : EncodedUnit S)
      (h : List (EncodedUnit S)) (img : DecodedYUV),
      HeapSorted (e :: h) →
      (makeFrame ((e :: h).head?) img).timestamp = e.timestamp ∧
      (makeFrame ((e :: h).head?) img).source = e.source ∧
      ∀ x ∈ e :: h, e.timestamp ≤ x.timestamp := by
  refine ⟨⟨rfl, rfl, rfl, rfl⟩, ?_⟩
  intro S _inst e h img hs
  refine ⟨rfl, rfl, ?_⟩
  intro x hx
  rcases List.mem_cons.mp hx with hx | hx
  · exact hx ▸ le_refl _
  · exact (List.pairwise_cons.mp hs).1 x hx

/-- Witness for C2's general part: applied to the sorted two-entry heap
holding the pending entries with timestamps 5 and 15. -/
theorem c2_witness :
    (makeFrame ((u5 :: [u15]).head?) img1).timestamp = u5.timestamp ∧
    (makeFrame ((u5 :: [u15]).head?) img1).source = u5.source ∧
    ∀ x ∈ u5 :: [u15], u5.timestamp ≤ x.timestamp :=
  c2_output_stamped_from_min_pending_entry.2 Nat inferInstance u5 [u15] img1
    (by constructor
        · intro x hx
          rcases List.mem_singleton.mp hx with rfl
          decide
        · simp [HeapSorted])

/-- A heap push always adds exactly one entry. -/
theorem heapPush_length {S : Type} (u : EncodedUnit S)
    (h : List (EncodedUnit S)) : (heapPush u h).length = h.length + 1 := by
  induction h with
  | nil => rfl
  | cons x xs ih =>
    by_cases hle : x.timestamp ≤ u.timestamp
    · simp [heapPush, hle, ih]
    · simp [heapPush, hle]

/-- C4 counterexample: after receiving chunkless frames with timestamps 3
and 5 the heap holds exactly the timestamps [3, 5]; a further frame with
timestamp 5 — a repeat of a timestamp already held in the heap — is pushed
anyway, growing the heap to [3, 5, 5], because the dedup check
(src/src/lib.rs lines 113-119) compares only against the heap's minimum
(here 3), not against every held timestamp. -/
theorem c4_counterexample :
    tsList (runUnits decNone 0 [] [v3, v5]).2.1 = [3, 5] ∧
    v5b.timestamp = 5 ∧
    tsList (runUnits decNone 0 [] [v3, v5, v5b]).2.1 = [3, 5, 5] ∧
    (runUnits decNone 0 [] [v3, v5, v5b]).2.1.length =
      (runUnits decNone 0 [] [v3, v5]).2.1.length + 1 :=
  ⟨rfl, rfl, rfl, rfl⟩

/-- C4 amended: the dedup rule compares the incoming frame's timestamp
with the heap's minimum entry only.  On a sorted heap: the head entry is a
minimum; when the head's timestamp equals the incoming timestamp nothing
is pushed (the heap is unchanged); in every other case — empty heap or a
differing minimum timestamp, even if the incoming timestamp repeats some
non-minimum held timestamp — exactly one entry is pushed. -/
theorem c4_amended_dedup_against_min_only {S : Type}
    (h : List (EncodedUnit S)) (u : EncodedUnit S) (hs : HeapSorted h) :
    (∀ e ∈ h, (h.head?.map (·.timestamp)).getD e.timestamp ≤ e.timestamp) ∧
    (h.head?.map (·.timestamp) = some u.timestamp → heapUpdate h u = h) ∧
    (h.head?.map (·.timestamp) ≠ some u.timestamp →
      (heapUpdate h u).length = h.length + 1) := by
  refine ⟨?_, ?_, ?_⟩
  · intro e he
    cases h with
    | nil => cases he
    | cons x xs =>
      rcases List.mem_cons.mp he with rfl | he
      · simp
      · simpa using (List.pairwise_cons.mp hs).1 e he
  · intro heq
    cases h with
    | nil => cases heq
    | cons x xs =>
      have hx : x.timestamp = u.timestamp := by simpa using heq
      simp [heapUpdate, hx]
  · intro hne
    cases h with
    | nil => simp [heapUpdate, heapPush]
    | cons x xs =>
      have hx : x.timestamp ≠ u.timestamp := by simpa using hne
      simp [heapUpdate, hx, heapPush_length]

/-- Witness for C4 amended: on the sorted heap [3, 5] an incoming repeat
of timestamp 5 differs from the minimum 3, so one entry is pushed. -/
theorem c4_witness :
    (heapUpdate [v3, v5] v5b).length = [v3, v5].length + 1 :=
  (c4_amended_dedup_against_min_only [v3, v5] v5b
    (by constructor
        · intro x hx
          rcases List.mem_singleton.mp hx with rfl
          decide
        · simp [HeapSorted])).2.2 (by decide)

/-- The adapter state after the worker side has gone away, with nothing
pending on the output channel. -/
def deadState : AdapterState Nat := ⟨false, [], []⟩

/-- C5 counterexample: with the worker side gone, `handle` drops the frame
(the send fails) and yields no item at all — in particular no error item
reporting the closed channel.  The send result is explicitly discarded
(`let _ = self.sender.send(frame).await`, src/src/lib.rs lines 196-199),
and `error::Error` has no channel-closed variant it could even report. -/
theorem c5_counterexample :
    (handle deadState u5).2 = [] ∧
    (handle deadState u5).1.inputQueue = [] :=
  ⟨rfl, rfl⟩

/-- C5 amended: the stream adapter never reports a send failure: whatever
the channel state, `handle` yields exactly the already-available output
items; when the worker side is gone, the frame is silently dropped; and
every value of the error type is an I/O error or a codec error — the type
has no channel-closed variant (its third variant carries the uninhabited
`flowly::Void`). -/
theorem c5_amended_send_failure_silently_dropped {S : Type}
    (st : AdapterState S) (u : EncodedUnit S) :
    ((handle st u).2 = st.outputQueue) ∧
    (st.workerAlive = false → (handle st u).1.inputQueue = st.inputQueue) ∧
    (∀ e : Error, (∃ n, e = .ioError n) ∨ (∃ n, e = .openH264Error n)) := by
  refine ⟨rfl, ?_, ?_⟩
  · intro hdead
    simp [handle, hdead]
  · intro e
    cases e with
    | ioError n => exact Or.inl ⟨n, rfl⟩
    | openH264Error n => exact Or.inr ⟨n, rfl⟩
    | other v => cases v

/-- Witness for C5 amended, at the dead adapter state. -/
theorem c5_witness :
    ((handle deadState u5).2 = deadState.outputQueue) ∧
    (deadState.workerAlive = false →
      (handle deadState u5).1.inputQueue = deadState.inputQueue) ∧
    (∀ e : Error, (∃ n, e = .ioError n) ∨ (∃ n, e = .openH264Error n)) :=
  c5_amended_send_failure_silently_dropped deadState u5

/-- C6: when the heap is empty at pop time, the built frame carries the
default zero timestamp, the default source tag and the default
`VIDEO_STREAM` flags — and, as the run of a two-chunk frame whose chunks
both decode to images shows, the underrun output is still sent as a
successful (`Ok`) item, not as an error. -/
theorem c6_underrun_emits_default_stamped_ok_frame :
    (∀ img : DecodedYUV,
      (makeFrame (none : Option (EncodedUnit Nat)) img).timestamp = 0 ∧
      (makeFrame (none : Option (EncodedUnit Nat)) img).source = 0 ∧
      (makeFrame (none : Option (EncodedUnit Nat)) img).flags =
        FrameFlags.videoStreamOnly) ∧
    (runUnits decImg 0 [] [u5two]).2.2 =
      [.ok (makeFrame (some u5two) img1), .ok (makeFrame none img1)] :=
  ⟨fun _ => ⟨rfl, rfl, rfl⟩, rfl⟩

/-- The `width` field of a built frame is the codec width cast `as u16`. -/
theorem makeFrame_width {S : Type} [Inhabited S]
    (inFrame : Option (EncodedUnit S)) (img : DecodedYUV) :
    (makeFrame inFrame img).width = img.width % 65536 := rfl

/-- The `height` field of a built frame is the codec height cast `as u16`. -/
theorem makeFrame_height {S : Type} [Inhabited S]
    (inFrame : Option (EncodedUnit S)) (img : DecodedYUV) :
    (makeFrame inFrame img).height = img.height % 65536 := rfl

/-- The pixel buffer of a built frame has exactly `width*height*3` bytes,
for the codec-reported (untruncated) dimensions: `make_frame` allocates
the buffer with that capacity, sets its length, and `write_rgb8` fills it
in place. -/
theorem makeFrame_data_length {S : Type} [Inhabited S]
    (inFrame : Option (EncodedUnit S)) (img : DecodedYUV) :
    (makeFrame inFrame img).data.length = img.width * img.height * 3 := by
  show (writeRgb8 img).length = _
  simp only [writeRgb8, List.length_map, List.length_range]

/-- An image whose reported width does not fit in 16 bits. -/
def imgBig : DecodedYUV := ⟨65538, 1, fun _ => 0⟩

/-- C7 counterexample: for a codec image of reported width 65538 the built
frame's `width` field is 2 — the `as u16` cast in `make_frame`
(src/src/lib.rs line 175) truncates — so the reported width differs from
the codec's, and the pixel buffer (of the full `65538*1*3` bytes) is not
of length `width*height*3`. -/
theorem c7_counterexample :
    imgBig.width = 65538 ∧
    (makeFrame (none : Option (EncodedUnit Nat)) imgBig).width = 2 ∧
    (makeFrame (none : Option (EncodedUnit Nat)) imgBig).data.length =
      65538 * 1 * 3 ∧
    ¬((makeFrame (none : Option (EncodedUnit Nat)) imgBig).data.length =
        (makeFrame (none : Option (EncodedUnit Nat)) imgBig).width *
          (makeFrame (none : Option (EncodedUnit Nat)) imgBig).height * 3) := by
  refine ⟨rfl, rfl, ?_, ?_⟩
  · rw [makeFrame_data_length]
    decide
  · rw [makeFrame_data_length, makeFrame_width, makeFrame_height]
    decide

/-- C7 amended: provided the codec-reported dimensions each fit in 16
bits, the built frame's `width` and `height` equal the codec's reported
dimensions and the pixel buffer's length is exactly `width*height*3`. -/
theorem c7_amended_dims_roundtrip_within_u16 {S : Type} [Inhabited S]
    (inFrame : Option (EncodedUnit S)) (img : DecodedYUV)
    (hw : img.width < 65536) (hh : img.height < 65536) :
    (makeFrame inFrame img).width = img.width ∧
    (makeFrame inFrame img).height = img.height ∧
    (makeFrame inFrame img).data.length =
      (makeFrame inFrame img).width * (makeFrame inFrame img).height * 3 := by
  rw [makeFrame_width, makeFrame_height, makeFrame_data_length,
    Nat.mod_eq_of_lt hw, Nat.mod_eq_of_lt hh]
  exact ⟨rfl, rfl, rfl⟩

/-- Witness for C7 amended, at a 1x1 image. -/
theorem c7_witness :
    (makeFrame (none : Option (EncodedUnit Nat)) img1).width = img1.width ∧
    (makeFrame (none : Option (EncodedUnit Nat)) img1).height = img1.height ∧
    (makeFrame (none : Option (EncodedUnit Nat)) img1).data.length =
      (makeFrame (none : Option (EncodedUnit Nat)) img1).width *
        (makeFrame (none : Option (EncodedUnit Nat)) img1).height * 3 :=
  c7_amended_dims_roundtrip_within_u16 none img1 (by decide) (by decide)

/-- C8: with the worker side alive, one `handle` call enqueues the frame —
and with it its chunks, in order — at the back of the input channel, then
yields exactly the items currently available on the output channel,
leaving the output channel drained: nothing is awaited beyond what is
already there (`try_recv` stops at the first empty or closed poll). -/
theorem c8_handle_enqueues_then_drains_available {S : Type}
    (st : AdapterState S) (u : EncodedUnit S)
    (halive : st.workerAlive = true) :
    (handle st u).1.inputQueue = st.inputQueue ++ [u] ∧
    ((handle st u).1.inputQueue.map (·.chunks)).flatten =
      (st.inputQueue.map (·.chunks)).flatten ++ u.chunks ∧
    (handle st u).2 = st.outputQueue ∧
    (handle st u).1.outputQueue = [] := by
  refine ⟨?_, ?_, rfl, rfl⟩ <;> simp [handle, halive]

/-- Witness for C8: an alive adapter with one pending output item. -/
theorem c8_witness :
    (handle ⟨true, [u5], [.ok (makeFrame (some u5) img1)]⟩ u15).1.inputQueue =
      [u5] ++ [u15] ∧
    ((handle ⟨true, [u5], [.ok (makeFrame (some u5) img1)]⟩
        u15).1.inputQueue.map (·.chunks)).flatten =
      (([u5] : List (EncodedUnit Nat)).map (·.chunks)).flatten ++ u15.chunks ∧
    (handle ⟨true, [u5], [.ok (makeFrame (some u5) img1)]⟩ u15).2 =
      [.ok (makeFrame (some u5) img1)] ∧
    (handle ⟨true, [u5], [.ok (makeFrame (some u5) img1)]⟩
      u15).1.outputQueue = [] :=
  c8_handle_enqueues_then_drains_available
    ⟨true, [u5], [.ok (makeFrame (some u5) img1)]⟩ u15 rfl

/-- C10: every built frame has the `ENCODED` and `ANNEXB` flags cleared;
its remaining flags are copied from the popped pending entry when one was
present, and default to `VIDEO_STREAM` alone when the heap was empty at
pop time. -/
theorem c10_flags_cleared_rest_copied {S : Type} [Inhabited S]
    (inFrame : Option (EncodedUnit S)) (img : DecodedYUV) :
    (makeFrame inFrame img).flags.encoded = false ∧
    (makeFrame inFrame img).flags.annexb = false ∧
    (match inFrame with
     | some x =>
       (makeFrame inFrame img).flags.videoStream = x.flags.videoStream ∧
         (makeFrame inFrame img).flags.rest = x.flags.rest
     | none =>
       (makeFrame inFrame img).flags = FrameFlags.videoStreamOnly) := by
  cases inFrame with
  | some x => exact ⟨rfl, rfl, rfl, rfl⟩
  | none => exact ⟨rfl, rfl, rfl⟩

/-- A frame built from a popped entry carries the entry's timestamp. -/
theorem makeFrame_timestamp_some {S : Type} [Inhabited S]
    (x : EncodedUnit S) (img : DecodedYUV) :
    (makeFrame (some x) img).timestamp = x.timestamp := rfl

/-- An `Ok` output item contributes its frame's timestamp. -/
theorem outTimestamps_cons_ok {S : Type} (f : DecodedFrame S)
    (l : List (OutItem S)) :
    outTimestamps (.ok f :: l) = f.timestamp :: outTimestamps l := rfl

/-- An error output item contributes no timestamp. -/
theorem outTimestamps_cons_error {S : Type} (e : Error)
    (l : List (OutItem S)) :
    outTimestamps (.error e :: l) = outTimestamps l := rfl

/-- Output timestamps of concatenated output runs concatenate. -/
theorem outTimestamps_append {S : Type} (l1 l2 : List (OutItem S)) :
    outTimestamps (l1 ++ l2) = outTimestamps l1 ++ outTimestamps l2 := by
  simp [outTimestamps, List.filterMap_append]

/-- Membership in the heap's timestamp list. -/
theorem mem_tsList {S : Type} {t : Nat} {h : List (EncodedUnit S)} :
    t ∈ tsList h ↔ ∃ x ∈ h, x.timestamp = t := by
  simp [tsList]

/-- The timestamp list of a non-empty heap. -/
theorem tsList_cons {S : Type} (e : EncodedUnit S)
    (h : List (EncodedUnit S)) :
    tsList (e :: h) = e.timestamp :: tsList h := rfl

/-- Pushing an entry whose timestamp dominates the whole heap appends it
at the back. -/
theorem heapPush_append {S : Type} (u : EncodedUnit S)
    (h : List (EncodedUnit S))
    (hle : ∀ x ∈ h, x.timestamp ≤ u.timestamp) :
    heapPush u h = h ++ [u] := by
  induction h with
  | nil => rfl
  | cons x xs ih =>
    have hx : x.timestamp ≤ u.timestamp := hle x (List.mem_cons_self x xs)
    simp [heapPush, hx, ih fun y hy => hle y (List.mem_cons_of_mem x hy)]

/-- A frame strictly newer than every pending entry is always pushed, and
lands at the back of the (sorted) heap. -/
theorem heapUpdate_append_of_lt {S : Type} (heap : List (EncodedUnit S))
    (u : EncodedUnit S)
    (hlt : ∀ e ∈ heap, e.timestamp < u.timestamp) :
    heapUpdate heap u = heap ++ [u] := by
  cases heap with
  | nil => rfl
  | cons x xs =>
    have hx : x.timestamp ≠ u.timestamp :=
      Nat.ne_of_lt (hlt x (List.mem_cons_self x xs))
    have hup : heapUpdate (x :: xs) u = heapPush u (x :: xs) := by
      simp [heapUpdate, hx]
    rw [hup, heapPush_append]
    exact fun y hy => Nat.le_of_lt (hlt y hy)

/-- Invariants of the chunk loop on a sorted heap, assuming no underrun:
the remaining heap is sorted; the emitted frame timestamps are
non-decreasing; each emitted timestamp is a lower bound on every remaining
heap entry; the remaining entries, and the emitted timestamps, all come
from the starting heap. -/
theorem runChunks_bounds {S : Type} [Inhabited S] {σ : Type}
    (dec : σ → List Nat → σ × DecodeResult) :
    ∀ (chunks : List (List Nat)) (cs : σ) (heap : List (EncodedUnit S)),
    HeapSorted heap → chunksNoUnderrun dec cs heap chunks = true →
    HeapSorted (runChunks dec cs heap chunks).2.1 ∧
    List.Pairwise (· ≤ ·)
      (outTimestamps (runChunks dec cs heap chunks).2.2) ∧
    (∀ t ∈ outTimestamps (runChunks dec cs heap chunks).2.2,
      ∀ e ∈ (runChunks dec cs heap chunks).2.1, t ≤ e.timestamp) ∧
    (∀ e ∈ (runChunks dec cs heap chunks).2.1, e ∈ heap) ∧
    (∀ t ∈ outTimestamps (runChunks dec cs heap chunks).2.2,
      t ∈ tsList heap) := by
  intro chunks
  induction chunks with
  | nil =>
    intro cs heap hs _
    refine ⟨hs, ?_, ?_, fun e he => he, ?_⟩ <;>
      simp [runChunks, outTimestamps]
  | cons c rest ih =>
    intro cs heap hs hnu
    rcases hdec : dec cs c with ⟨cs1, r⟩
    rcases r with e | o
    · rcases hrc : runChunks (S := S) dec cs1 heap rest with ⟨cs2, h2, outs⟩
      have hnu' : chunksNoUnderrun dec cs1 heap rest = true := by
        simpa only [chunksNoUnderrun, hdec] using hnu
      obtain ⟨i1, i2, i3, i4, i5⟩ := ih cs1 heap hs hnu'
      rw [hrc] at i1 i2 i3 i4 i5
      simp only [runChunks, hdec, hrc]
      exact ⟨i1, by rw [outTimestamps_cons_error]; exact i2,
        by rw [outTimestamps_cons_error]; exact i3,
        i4, by rw [outTimestamps_cons_error]; exact i5⟩
    · rcases o with _ | img
      · have hnu' : chunksNoUnderrun dec cs1 heap rest = true := by
          simpa only [chunksNoUnderrun, hdec] using hnu
        obtain ⟨i1, i2, i3, i4, i5⟩ := ih cs1 heap hs hnu'
        simpa only [runChunks, hdec] using ⟨i1, i2, i3, i4, i5⟩
      · have hnu2 : (!heap.isEmpty &&
            chunksNoUnderrun dec cs1 heap.tail rest) = true := by
          simpa only [chunksNoUnderrun, hdec] using hnu
        rw [Bool.and_eq_true] at hnu2
        obtain ⟨hne, hnu'⟩ := hnu2
        cases heap with
        | nil => simp at hne
        | cons e0 htl =>
          have hhead : ∀ b ∈ htl, e0.timestamp ≤ b.timestamp :=
            (List.pairwise_cons.mp hs).1
          have hs' : HeapSorted htl := (List.pairwise_cons.mp hs).2
          rcases hrc : runChunks (S := S) dec cs1 htl rest with
            ⟨cs2, h2, outs⟩
          have hnu'' : chunksNoUnderrun dec cs1 htl rest = true := by
            simpa only [List.tail_cons] using hnu'
          obtain ⟨i1, i2, i3, i4, i5⟩ := ih cs1 htl hs' hnu''
          rw [hrc] at i1 i2 i3 i4 i5
          simp only [runChunks, hdec, List.head?_cons, List.tail_cons, hrc]
          refine ⟨i1, ?_, ?_, ?_, ?_⟩
          · rw [outTimestamps_cons_ok, makeFrame_timestamp_some]
            refine List.pairwise_cons.mpr ⟨?_, i2⟩
            intro t ht
            obtain ⟨x, hx, rfl⟩ := mem_tsList.mp (i5 t ht)
            exact hhead x hx
          · rw [outTimestamps_cons_ok, makeFrame_timestamp_some]
            intro t ht ent hent
            rcases List.mem_cons.mp ht with rfl | ht
            · exact hhead ent (i4 ent hent)
            · exact i3 t ht ent hent
          · exact fun ent hent => List.mem_cons_of_mem e0 (i4 ent hent)
          · rw [outTimestamps_cons_ok, makeFrame_timestamp_some]
            intro t ht
            rcases List.mem_cons.mp ht with rfl | ht
            · exact List.mem_cons_self _ _
            · exact List.mem_cons_of_mem _ (i5 t ht)

/-- Invariants of the worker loop on strictly increasing submissions with
no heap underrun: the heap stays sorted; the emitted frame timestamps are
non-decreasing; each emitted timestamp bounds every remaining heap entry;
remaining entries and emitted timestamps all come from the starting heap
or from the submitted frames. -/
theorem runUnits_bounds {S : Type} [Inhabited S] {σ : Type}
    (dec : σ → List Nat → σ × DecodeResult) :
    ∀ (units : List (EncodedUnit S)) (cs : σ)
      (heap : List (EncodedUnit S)),
    HeapSorted heap →
    List.Pairwise (fun a b => a.timestamp < b.timestamp) units →
    (∀ e ∈ heap, ∀ u ∈ units, e.timestamp < u.timestamp) →
    unitsNoUnderrun dec cs heap units = true →
    HeapSorted (runUnits dec cs heap units).2.1 ∧
    List.Pairwise (· ≤ ·)
      (outTimestamps (runUnits dec cs heap units).2.2) ∧
    (∀ t ∈ outTimestamps (runUnits dec cs heap units).2.2,
      ∀ e ∈ (runUnits dec cs heap units).2.1, t ≤ e.timestamp) ∧
    (∀ e ∈ (runUnits dec cs heap units).2.1, e ∈ heap ∨ e ∈ units) ∧
    (∀ t ∈ outTimestamps (runUnits dec cs heap units).2.2,
      t ∈ tsList heap ∨ t ∈ tsList units) := by
  intro units
  induction units with
  | nil =>
    intro cs heap hs _ _ _
    refine ⟨hs, ?_, ?_, fun e he => Or.inl he, ?_⟩ <;>
      simp [runUnits, outTimestamps]
  | cons u rest ih =>
    intro cs heap hs hinc hcross hnu
    have hltu : ∀ e ∈ heap, e.timestamp < u.timestamp :=
      fun e he => hcross e he u (List.mem_cons_self u rest)
    have hU : heapUpdate heap u = heap ++ [u] :=
      heapUpdate_append_of_lt heap u hltu
    have hUs : HeapSorted (heap ++ [u]) := by
      refine List.pairwise_append.mpr ⟨hs, by simp, ?_⟩
      intro a ha b hb
      rcases List.mem_singleton.mp hb with rfl
      exact Nat.le_of_lt (hltu a ha)
    have huRest : ∀ v ∈ rest, u.timestamp < v.timestamp :=
      (List.pairwise_cons.mp hinc).1
    have hinc' := (List.pairwise_cons.mp hinc).2
    have hcross' : ∀ e ∈ heap ++ [u], ∀ v ∈ rest,
        e.timestamp < v.timestamp := by
      intro e he v hv
      rcases List.mem_append.mp he with he | he
      · exact hcross e he v (List.mem_cons_of_mem u hv)
      · rcases List.mem_singleton.mp he with rfl
        exact huRest v hv
    rcases hrcA : runChunks (S := S) dec cs (heap ++ [u]) u.chunks with
      ⟨csA, hA, outsA⟩
    have hnu2 : (chunksNoUnderrun dec cs (heap ++ [u]) u.chunks &&
        unitsNoUnderrun dec csA hA rest) = true := by
      simpa only [unitsNoUnderrun, hU, hrcA] using hnu
    rw [Bool.and_eq_true] at hnu2
    obtain ⟨a1, a2, a3, a4, a5⟩ :=
      runChunks_bounds dec u.chunks cs (heap ++ [u]) hUs hnu2.1
    rw [hrcA] at a1 a2 a3 a4 a5
    have hcrossA : ∀ e ∈ hA, ∀ v ∈ rest, e.timestamp < v.timestamp :=
      fun e he v hv => hcross' e (a4 e he) v hv
    obtain ⟨b1, b2, b3, b4, b5⟩ := ih csA hA a1 hinc' hcrossA hnu2.2
    rcases hrB : runUnits dec csA hA rest with ⟨csB, hB, outsB⟩
    rw [hrB] at b1 b2 b3 b4 b5
    simp only [runUnits, hU, hrcA, hrB]
    refine ⟨b1, ?_, ?_, ?_, ?_⟩
    · rw [outTimestamps_append]
      refine List.pairwise_append.mpr ⟨a2, b2, ?_⟩
      intro t1 ht1 t2 ht2
      rcases b5 t2 ht2 with h2A | h2R
      · obtain ⟨x, hx, rfl⟩ := mem_tsList.mp h2A
        exact a3 t1 ht1 x hx
      · obtain ⟨v, hv, rfl⟩ := mem_tsList.mp h2R
        obtain ⟨x, hx, rfl⟩ := mem_tsList.mp (a5 t1 ht1)
        exact Nat.le_of_lt (hcross' x hx v hv)
    · rw [outTimestamps_append]
      intro t ht ent hent
      rcases List.mem_append.mp ht with ht | ht
      · rcases b4 ent hent with he | he
        · exact a3 t ht ent he
        · obtain ⟨x, hx, rfl⟩ := mem_tsList.mp (a5 t ht)
          exact Nat.le_of_lt (hcross' x hx ent he)
      · exact b3 t ht ent hent
    · intro ent hent
      rcases b4 ent hent with he | he
      · rcases List.mem_append.mp (a4 ent he) with h | h
        · exact Or.inl h
        · rcases List.mem_singleton.mp h with rfl
          exact Or.inr (List.mem_cons_self _ _)
      · exact Or.inr (List.mem_cons_of_mem u he)
    · rw [outTimestamps_append]
      intro t ht
      rcases List.mem_append.mp ht with ht | ht
      · rcases mem_tsList.mp (a5 t ht) with ⟨x, hx, rfl⟩
        rcases List.mem_append.mp hx with h | h
        · exact Or.inl (mem_tsList.mpr ⟨x, h, rfl⟩)
        · rcases List.mem_singleton.mp h with rfl
          exact Or.inr (by rw [tsList_cons]; exact List.mem_cons_self _ _)
      · rcases b5 t ht with h | h
        · rcases mem_tsList.mp h with ⟨x, hx, rfl⟩
          rcases List.mem_append.mp (a4 x hx) with hh | hh
          · exact Or.inl (mem_tsList.mpr ⟨x, hh, rfl⟩)
          · rcases List.mem_singleton.mp hh with rfl
            exact Or.inr
              (by rw [tsList_cons]; exact List.mem_cons_self _ _)
        · exact Or.inr (by rw [tsList_cons]; exact List.mem_cons_of_mem _ h)

/-- C3 counterexample: the submissions [5, 7] are strictly increasing, but
the frame with timestamp 5 arrives in two chunks and the codec happens to
return an image for both — the second pop underruns the heap, and the
emitted timestamps are [5, 0, 7], which is not non-decreasing.  The claim
quantifies over all behaviours, and heap underrun (which the code
silently stamps with the default timestamp 0) breaks it. -/
theorem c3_counterexample :
    List.Pairwise (fun a b => a.timestamp < b.timestamp) [u5two, u7] ∧
    outTimestamps (runUnits decImg 0 [] [u5two, u7]).2.2 = [5, 0, 7] ∧
    ¬ List.Pairwise (· ≤ ·)
      (outTimestamps (runUnits decImg 0 [] [u5two, u7]).2.2) := by
  refine ⟨by decide, rfl, ?_⟩
  intro hp
  have h50 : (5 : Nat) ≤ 0 :=
    (List.pairwise_cons.mp hp).1 0 (List.mem_cons_self _ _)
  exact absurd h50 (by decide)

/-- C3 amended: for strictly increasing submission timestamps, and
provided the codec never yields an image while the reassociation heap is
empty (no underrun), the timestamps of the decoded output frames are
non-decreasing — each output is paired with the minimum pending entry, so
outputs appear in the ascending-timestamp pop order, which for strictly
increasing submissions is the submission order. -/
theorem c3_outputs_nondecreasing {S : Type} [Inhabited S] {σ : Type}
    (dec : σ → List Nat → σ × DecodeResult) (cs : σ)
    (units : List (EncodedUnit S))
    (hinc : List.Pairwise (fun a b => a.timestamp < b.timestamp) units)
    (hnu : unitsNoUnderrun dec cs [] units = true) :
    List.Pairwise (· ≤ ·)
      (outTimestamps (runUnits dec cs [] units).2.2) :=
  (runUnits_bounds dec units cs [] (List.Pairwise.nil) hinc
    (fun e he => absurd he (List.not_mem_nil e)) hnu).2.1

/-- A frame with timestamp 10, one chunk. -/
def w10 : EncodedUnit Nat := ⟨10, 1, flgIn, [[0]]⟩

/-- A frame with timestamp 20, one chunk. -/
def w20 : EncodedUnit Nat := ⟨20, 2, flgIn, [[1]]⟩

/-- A frame with timestamp 30, one chunk. -/
def w30 : EncodedUnit Nat := ⟨30, 3, flgIn, [[2]]⟩

/-- Witness for C3 amended: three one-chunk frames with timestamps
[10, 20, 30], each decoding synchronously to one image. -/
theorem c3_witness :
    List.Pairwise (· ≤ ·)
      (outTimestamps (runUnits decImg 0 [] [w10, w20, w30]).2.2) :=
  c3_outputs_nondecreasing decImg 0 [w10, w20, w30] (by decide) (by decide)

end FlowlyOpenh264
